import Mathlib

/-!
# Verification of the swa.sh dictation tool

Shallow embedding of the core of the repository:

* `Stream.merge` (src/index.js lines 104-132, src/unnamed/part_002 lines 93-113),
  modelled as a fuel-bounded loop over an array of promise slots with an
  explicit scheduler choosing which pending pull resolves first.
* the recognition `onerror` handler (src/index.js 195-201, part_002 178-184).
* `confidenceGrade` (src/index.js 340-356, part_002 349-365), with JS numbers
  modelled as `Option ℚ` (`none` stands for `undefined`/`NaN`, for which every
  `>` comparison is false, exactly as in JS).
* the `SwashDictaphone` transcript state machine of src/unnamed/part_002
  (`insertDelay`, `handleEvent`, `loadAndHandleEvents`, `saveEvent`, `reset`),
  with the DOM state (`.final` children, `.interim` text, the hidden `aside`
  timestamp) and the `localStorage` event log made explicit.
* the `RmsProcessor` audio worklet of src/unnamed/part_003.
-/

namespace Swash

/-! ## Stream.merge (src/index.js 104-132, part_002 93-113)

Each promise slot of the JS `promises` array is either still pending (tagged
with the source index and which pull of that source it is), already settled
(the JS promise object stays in the array after it resolves), or a hole
(JS array assignment past the current length leaves holes, which
`Promise.race` treats as an immediately-settled `undefined`, crashing the
destructuring in the loop). -/

inductive PEntry where
  | pending (src : Nat) (pull : Nat)
  | settled (value : Option String) (src : Nat)
deriving DecidableEq, Repr

structure MergeState where
  promises : List (Option PEntry)
  pulls : List Nat
  output : List String
  crashed : Bool
deriving DecidableEq, Repr

/-- A slot wins `Promise.race` immediately iff it is a hole or already settled. -/
def slotReady : Option PEntry → Bool
  | none => true
  | some (.settled _ _) => true
  | some (.pending _ _) => false

/-- Positions of the still-pending slots, among which the scheduler chooses. -/
def pendingPositions (ps : List (Option PEntry)) : List Nat :=
  (List.range ps.length).filter fun i =>
    match ps.get? i with
    | some (some (.pending _ _)) => true
    | _ => false

/-- The `pull`-th call of `iterators[src].next()`: a value while the source
list has items, `none` (done) afterwards. -/
def pullResult (sources : List (List String)) (src pull : Nat) : Option String :=
  (sources.getD src []).get? pull

/-- JS `promises[i] = e`: in-range assignment replaces, past-the-end assignment
extends the array, creating holes in between. -/
def setSlot (ps : List (Option PEntry)) (i : Nat) (e : Option PEntry) :
    List (Option PEntry) :=
  if i < ps.length then ps.set i e
  else ps ++ List.replicate (i - ps.length) none ++ [e]

/-- The body of the merge loop after the race resolved with `(value, src)`.
`value = none` is a done result: the code removes the slot found by
`findIndex((_, i) => i === source)`, which is position `source` when
`source < promises.length` and no slot otherwise.  Otherwise the value is
yielded and slot `source` (by original index!) is re-armed with the next pull
of that source. -/
def applyResult (s : MergeState) (value : Option String) (src : Nat) :
    MergeState :=
  match value with
  | none =>
    if src < s.promises.length then
      { s with promises := s.promises.eraseIdx src }
    else s
  | some v =>
    let pull := s.pulls.getD src 0
    { s with
        output := s.output ++ [v],
        promises := setSlot s.promises src (some (.pending src pull)),
        pulls := s.pulls.set src (pull + 1) }

/-- One iteration of the merge loop: `Promise.race(promises)`.  If some slot is
already settled (or a hole) the first such slot wins; otherwise the scheduler
head picks one of the pending slots, which resolves in place. -/
def mergeStep (sources : List (List String)) (sched : List Nat)
    (s : MergeState) : MergeState × List Nat :=
  match s.promises.findIdx? slotReady with
  | some i =>
    match s.promises.getD i none with
    | some (.settled v src) => (applyResult s v src, sched)
    | _ => ({ s with crashed := true }, sched)
  | none =>
    let pend := pendingPositions s.promises
    if pend.length = 0 then ({ s with crashed := true }, sched)
    else
      let pos := pend.getD (sched.headD 0 % pend.length) 0
      match s.promises.getD pos none with
      | some (.pending src pull) =>
        let r := pullResult sources src pull
        (applyResult { s with promises := s.promises.set pos (some (.settled r src)) } r src,
         sched.tail)
      | _ => ({ s with crashed := true }, sched)

/-- Initial state: one pull of every iterator is in flight, tagged with its
index. -/
def mergeInit (sources : List (List String)) : MergeState :=
  { promises := (List.range sources.length).map fun i => some (.pending i 0),
    pulls := sources.map fun _ => 1,
    output := [],
    crashed := false }

/-- The merge loop, fuel-bounded: `while (promises.length > 0)`. -/
def mergeRun (sources : List (List String)) :
    Nat → List Nat → MergeState → MergeState
  | 0, _, s => s
  | fuel + 1, sched, s =>
    if s.promises.length = 0 ∨ s.crashed then s
    else
      let p := mergeStep sources sched s
      mergeRun sources fuel p.2 p.1

/-! ## Domain events (src/unnamed/part_002)

Events are plain JS objects dispatched on their `type` string; fields absent
on a given event kind are modelled by their defaults. Timestamps are
milliseconds since the epoch (`new Date(iso)` arithmetic). -/

structure DomainEvent where
  type : String
  transcript : String := ""
  grade : String := ""
  timestamp : Int := 0
  id : String := ""
deriving DecidableEq, Repr

/-! ## confidenceGrade (src/index.js 340-356, part_002 349-365)

A JS number is `Option ℚ`: `none` models `undefined` and `NaN`, for which
every `>` comparison evaluates to false, so the chain falls through to "F". -/

/-- JS `confidence > q` on an `Option ℚ` confidence. -/
def jsGT (x : Option ℚ) (q : ℚ) : Bool :=
  match x with
  | some v => decide (q < v)
  | none => false

def confidenceGrade (confidence : Option ℚ) : String :=
  if jsGT confidence (95 / 100) then "A+"
  else if jsGT confidence (9 / 10) then "A"
  else if jsGT confidence (8 / 10) then "B"
  else if jsGT confidence (7 / 10) then "C"
  else if jsGT confidence (6 / 10) then "D"
  else "F"

/-! ## Recognition onerror handler (src/index.js 195-201, part_002 178-184) -/

/-- What the `onerror` callback does with a native error: either push a domain
event into the stream and keep going, or reject the stream's pending promise
(`fail`), terminating the sequence with that error. -/
inductive RecAction where
  | emit (e : DomainEvent)
  | fail (err : String)
deriving DecidableEq, Repr

/-- Model of `recognition.onerror`: `no-speech` becomes a `NoSpeech` event (timestamped
with the current instant); every other error code calls `fail(error)`. -/
def onerror (now : Int) (errCode : String) : RecAction :=
  if errCode = "no-speech" then
    .emit { type := "NoSpeech", timestamp := now }
  else .fail errCode

/-! ## SwashDictaphone transcript state (src/unnamed/part_002 194-344)

The DOM holds: the children of `.final` (utterance spans, dot runs, divider
rules — the latter two carry class `delay`), the text of `.interim`, and the
hidden `aside` holding the last timestamp written by `setAsideContent`.
`localStorage` holds the per-session event log (`none` after `removeItem`).
The divider's date/time children are abstracted to the flag of whether they
are rendered (their text is locale formatting of the new timestamp). -/

inductive FinalItem where
  | utter (text grade id : String)
  | dots (n : Nat)
  | divider (withDate : Bool)
deriving DecidableEq, Repr

/-- Whether a `.final` child carries the `delay` class. -/
def FinalItem.isDelay : FinalItem → Bool
  | .utter _ _ _ => false
  | .dots _ => true
  | .divider _ => true

/-- The CSS check `.final > :not(.delay):last-child`: the last child exists and
is not a delay marker. -/
def lastNonDelay (l : List FinalItem) : Bool :=
  match l.getLast? with
  | some it => ! it.isDelay
  | none => false

structure DictaphoneState where
  final : List FinalItem
  interim : String
  aside : Option Int
  storage : Option (List DomainEvent)
deriving DecidableEq, Repr

/-- Fresh component, empty `localStorage`. -/
def emptyState : DictaphoneState :=
  { final := [], interim := "", aside := none, storage := none }

/-- Model of `insertDelay(timestamp)` of part_002 (lines 237-285).  `t` is the parse of
the aside text: `some` milliseconds when a timestamp was stored, `none`
(Invalid Date) initially.  The `if (t)` guard is always taken (a `Date` object
is truthy even when invalid); with an invalid stored date the computed delay
is `NaN`, so `NaN < 3` and `NaN > 20` are both false and
`'.'.repeat(Math.floor(NaN))` is an empty dot run.  With a valid stored date
and `delay < 3` the method returns *before* `setAsideContent`, leaving the
aside unchanged. -/
def insertDelay (ts : Int) (s : DictaphoneState) : DictaphoneState :=
  match s.aside with
  | some t =>
    let dt := ts - t
    if dt < 3000 then s
    else
      let s' :=
        if lastNonDelay s.final then
          { s with final := s.final ++
              [if 20000 < dt then FinalItem.divider (decide (60000 < dt))
               else FinalItem.dots ((dt / 1000).toNat)] }
        else s
      { s' with aside := some ts }
  | none =>
    let s' :=
      if lastNonDelay s.final then { s with final := s.final ++ [FinalItem.dots 0] }
      else s
    { s' with aside := some ts }

/-- The `.final`-children part of `insertDelay` as a function of the rendered
list and the stored aside timestamp (used to state what `insertDelay` does). -/
def delayFinal (ts : Int) (f : List FinalItem) (a : Option Int) : List FinalItem :=
  match a with
  | some t =>
    let dt := ts - t
    if dt < 3000 then f
    else if lastNonDelay f then
      f ++ [if 20000 < dt then FinalItem.divider (decide (60000 < dt))
            else FinalItem.dots ((dt / 1000).toNat)]
    else f
  | none => if lastNonDelay f then f ++ [FinalItem.dots 0] else f

/-- The aside part of `insertDelay`: updated to the new timestamp except on
the `delay < 3` early return. -/
def delayAside (ts : Int) (a : Option Int) : Option Int :=
  match a with
  | some t => if ts - t < 3000 then some t else some ts
  | none => some ts

/-- The whitespace characters stripped by `String.prototype.trim` (the ASCII
ones, which are the only ones arising here). -/
def jsWs (c : Char) : Bool :=
  c = ' ' ∨ c = '\t' ∨ c = '\n' ∨ c = '\r'

/-- Model of `transcript.trim()`: strip leading and trailing whitespace. -/
def jsTrim (s : String) : String :=
  String.mk (((s.data.dropWhile jsWs).reverse.dropWhile jsWs).reverse)

/-- ASCII case folding, all `toLowerCase` needs for the phrases involved. -/
def lowerChar (c : Char) : Char :=
  if 'A' ≤ c ∧ c ≤ 'Z' then Char.ofNat (c.toNat + 32) else c

/-- Model of `transcript.toLowerCase()`. -/
def jsToLower (s : String) : String := String.mk (s.data.map lowerChar)

/-- Model of `event.transcript.trim().toLowerCase()`. -/
def normalizeCmd (s : String) : String := jsToLower (jsTrim s)

/-- Model of `handleEvent(event, shouldSave)` of part_002 (lines 291-343).  `none`
models an exception escaping the handler.  The command table is the object
literal `{'hard reset please': this.reset.bind(this)}`; JS property lookup on
it also reaches `Object.prototype`, so the all-lowercase inherited names
behave specially: `'constructor'` yields the (truthy, callable) `Object`
constructor, whose call is a state-free no-op, and `'__proto__'` yields the
(truthy, non-callable) prototype object, whose call throws.  The same holds
for the `eventTypeHandlers` literal dispatched on `event.type`.  Unknown
types are ignored. -/
def handleEvent (shouldSave : Bool) (e : DomainEvent) (s₀ : DictaphoneState) :
    Option DictaphoneState :=
  let s := if shouldSave
    then { s₀ with storage := some (s₀.storage.getD [] ++ [e]) }
    else s₀
  if e.type = "Result" then
    some { s with interim := "" }
  else if e.type = "FinalTranscript" then
    let key := normalizeCmd e.transcript
    if key = "hard reset please" then
      some { s with storage := none, final := [], interim := "" }
    else if key = "constructor" then
      some s
    else if key = "__proto__" then
      none
    else
      let s1 := insertDelay e.timestamp s
      some { s1 with
        final := s1.final ++ [FinalItem.utter e.transcript e.grade e.id],
        interim := "" }
  else if e.type = "InterimTranscript" then
    let s1 := if s.interim = "" then insertDelay e.timestamp s else s
    some { s1 with interim := s1.interim ++ e.transcript }
  else if e.type = "constructor" then
    some s
  else if e.type = "__proto__" then
    none
  else
    some s

/-- Model of `events.forEach(event => this.handleEvent(event, shouldSave))`, stopping
at the first exception. -/
def handleEvents (shouldSave : Bool) :
    List DomainEvent → DictaphoneState → Option DictaphoneState
  | [], s => some s
  | e :: es, s =>
    match handleEvent shouldSave e s with
    | none => none
    | some s' => handleEvents shouldSave es s'

/-- Model of `loadAndHandleEvents` (part_002 220-223): parse the stored log (missing →
`'[]'`) and apply every event with `shouldSave = false`. -/
def loadAndHandleEvents (s : DictaphoneState) : Option DictaphoneState :=
  handleEvents false (s.storage.getD []) s

/-- The transcript part of the state: rendered `.final` children, `.interim`
text, and the hidden aside timestamp (the persisted log excluded). -/
def proj (s : DictaphoneState) : List FinalItem × String × Option Int :=
  (s.final, s.interim, s.aside)

/-- A recorded reset-command event, as it would sit in a stored log. -/
def resetEvent : DomainEvent :=
  { type := "FinalTranscript", transcript := "hard reset please",
    grade := "A", timestamp := 0, id := "r1" }

/-- A recorded ordinary utterance event. -/
def hiEvent : DomainEvent :=
  { type := "FinalTranscript", transcript := "hi", grade := "A",
    timestamp := 0, id := "i1" }

/-! ## RmsProcessor (src/unnamed/part_003)

Samples are rationals; `Math.sqrt(sumSq / channels) <= threshold` is stated
as `sumSq / channels ≤ threshold²` to stay inside `ℚ` (the parameter range
pins `threshold` to `[0, 1]`, where the two are equivalent). -/

/-- Model of `for (const channel of input) for (const sample of channel) rms += s*s`. -/
def sumSquares (input : List (List ℚ)) : ℚ :=
  (input.map fun ch => (ch.map fun x => x * x).sum).sum

/-- Model of `parameters.threshold[0] || 0.1`: a zero (falsy) parameter falls back to
the 0.1 default. -/
def effThreshold (t : ℚ) : ℚ := if t = 0 then 1 / 10 else t

/-- The test `rms <= threshold` where `rms = sqrt(sumSquares / input.length)` — note
the code divides by the channel count, not the total sample count. -/
def frameBelow (threshold : ℚ) (input : List (List ℚ)) : Bool :=
  decide (sumSquares input / (input.length : ℚ) ≤ effThreshold threshold ^ 2)

/-- Model of `Math.ceil(1 * theSampleRate / input[0].length)`. -/
def chunkLimit (sampleRate : ℚ) (input : List (List ℚ)) : Nat :=
  ⌈sampleRate / ((input.headD []).length : ℚ)⌉.toNat

structure RmsState where
  silentChunks : Nat
  silence : Bool
deriving DecidableEq, Repr

/-- Constructor state: `silentChunks = 0`, `silence = true`. -/
def RmsState.init : RmsState := { silentChunks := 0, silence := true }

/-- One `process` call; the second component is the message posted on the
port, if any (`some true` = `{silent: true}`, i.e. speech stopped). -/
def process (sampleRate threshold : ℚ) (s : RmsState) (input : List (List ℚ)) :
    RmsState × Option Bool :=
  if frameBelow threshold input then
    let c := s.silentChunks + 1
    if chunkLimit sampleRate input ≤ c then
      if s.silence then ({ silentChunks := c, silence := true }, none)
      else ({ silentChunks := c, silence := true }, some true)
    else ({ silentChunks := c, silence := s.silence }, none)
  else
    if s.silence then ({ silentChunks := 0, silence := false }, some false)
    else ({ silentChunks := 0, silence := false }, none)

/-- Processing a sequence of frames, collecting the posted messages. -/
def processList (sampleRate threshold : ℚ) (s : RmsState) :
    List (List (List ℚ)) → RmsState × List Bool
  | [] => (s, [])
  | f :: fs =>
    let p := process sampleRate threshold s f
    let rest := processList sampleRate threshold p.1 fs
    (rest.1, p.2.toList ++ rest.2)

end Swash

/-! # Theorems -/

namespace Swash

/-- C1: merging two sources where source 0 finishes (its producer calls
`stop()`) before source 1 delivers its single value "v" makes the merge yield
"v" twice within three loop iterations: the done-removal splices by position,
after which the resolved promise holding "v" is left at a stale position while
the re-arm writes past it, so `Promise.race` keeps answering with the stale
settled promise.  The claim (and the function's own doc comment) require every
value to be yielded exactly once. -/
theorem merge_duplicates_value :
    (mergeRun [[], ["v"]] 3 [0] (mergeInit [[], ["v"]])).output = ["v", "v"] := by
  decide

/-- C4 counterexample: a native error with code `network` does not produce a
`NetworkDown` domain event — the handler has no `network` branch at all, so it
calls `fail(error)` and the sequence terminates with that error. -/
theorem onerror_network_fails : onerror 0 "network" = RecAction.fail "network" := by
  decide

/-- C4 (amended): on a native recognizer error, code `no-speech` emits a
`NoSpeech` domain event and the sequence continues; every other error code —
including `network` — makes the sequence fail with that error and terminate. -/
theorem onerror_behavior (now : Int) (errCode : String) :
    (errCode = "no-speech" →
      onerror now errCode = RecAction.emit { type := "NoSpeech", timestamp := now }) ∧
    (errCode ≠ "no-speech" → onerror now errCode = RecAction.fail errCode) := by
  constructor
  · intro h
    simp [onerror, h]
  · intro h
    simp [onerror, h]

/-- Witness for `onerror_behavior` at concrete error codes. -/
theorem onerror_behavior_witness :
    onerror 7 "no-speech" = RecAction.emit { type := "NoSpeech", timestamp := 7 } ∧
    onerror 7 "aborted" = RecAction.fail "aborted" :=
  ⟨(onerror_behavior 7 "no-speech").1 rfl,
   (onerror_behavior 7 "aborted").2 (by decide)⟩

/-- The grading chain with the JS comparisons unfolded to rational ones. -/
lemma confidenceGrade_some (c : ℚ) :
    confidenceGrade (some c) =
      if 95 / 100 < c then "A+"
      else if 9 / 10 < c then "A"
      else if 8 / 10 < c then "B"
      else if 7 / 10 < c then "C"
      else if 6 / 10 < c then "D"
      else "F" := by
  simp [confidenceGrade, jsGT]

lemma cg_iff_Aplus (c : ℚ) : confidenceGrade (some c) = "A+" ↔ 95 / 100 < c := by
  rw [confidenceGrade_some]
  split_ifs <;> simp +decide <;> linarith

lemma cg_iff_A (c : ℚ) :
    confidenceGrade (some c) = "A" ↔ 9 / 10 < c ∧ c ≤ 95 / 100 := by
  rw [confidenceGrade_some]
  split_ifs <;> simp +decide <;>
    first | linarith | (constructor <;> linarith) | (intro h; linarith)

lemma cg_iff_B (c : ℚ) :
    confidenceGrade (some c) = "B" ↔ 8 / 10 < c ∧ c ≤ 9 / 10 := by
  rw [confidenceGrade_some]
  split_ifs <;> simp +decide <;>
    first | linarith | (constructor <;> linarith) | (intro h; linarith)

lemma cg_iff_C (c : ℚ) :
    confidenceGrade (some c) = "C" ↔ 7 / 10 < c ∧ c ≤ 8 / 10 := by
  rw [confidenceGrade_some]
  split_ifs <;> simp +decide <;>
    first | linarith | (constructor <;> linarith) | (intro h; linarith)

lemma cg_iff_D (c : ℚ) :
    confidenceGrade (some c) = "D" ↔ 6 / 10 < c ∧ c ≤ 7 / 10 := by
  rw [confidenceGrade_some]
  split_ifs <;> simp +decide <;>
    first | linarith | (constructor <;> linarith) | (intro h; linarith)

lemma cg_iff_F (c : ℚ) : confidenceGrade (some c) = "F" ↔ c ≤ 6 / 10 := by
  rw [confidenceGrade_some]
  split_ifs <;> simp +decide <;> linarith

/-- C3: the grade buckets are open on the low side: `A+` iff confidence
`> 0.95`, `A` iff `0.90 < c ≤ 0.95`, `B` iff `0.80 < c ≤ 0.90`, `C` iff
`0.70 < c ≤ 0.80`, `D` iff `0.60 < c ≤ 0.70`, and `F` iff `c ≤ 0.60`. -/
theorem confidenceGrade_boundaries (c : ℚ) :
    (confidenceGrade (some c) = "A+" ↔ 95 / 100 < c) ∧
    (confidenceGrade (some c) = "A" ↔ 9 / 10 < c ∧ c ≤ 95 / 100) ∧
    (confidenceGrade (some c) = "B" ↔ 8 / 10 < c ∧ c ≤ 9 / 10) ∧
    (confidenceGrade (some c) = "C" ↔ 7 / 10 < c ∧ c ≤ 8 / 10) ∧
    (confidenceGrade (some c) = "D" ↔ 6 / 10 < c ∧ c ≤ 7 / 10) ∧
    (confidenceGrade (some c) = "F" ↔ c ≤ 6 / 10) :=
  ⟨cg_iff_Aplus c, cg_iff_A c, cg_iff_B c, cg_iff_C c, cg_iff_D c, cg_iff_F c⟩

/-- Witness for `confidenceGrade_boundaries` at the boundary inputs named by
the spec: 0.951 → A+, 0.95 → A, 0.601 → D, 0.60 → F. -/
theorem confidenceGrade_boundaries_witness :
    confidenceGrade (some (951 / 1000)) = "A+" ∧
    confidenceGrade (some (95 / 100)) = "A" ∧
    confidenceGrade (some (601 / 1000)) = "D" ∧
    confidenceGrade (some (6 / 10)) = "F" :=
  ⟨(confidenceGrade_boundaries (951 / 1000)).1.mpr (by norm_num),
   (confidenceGrade_boundaries (95 / 100)).2.1.mpr (by norm_num),
   (confidenceGrade_boundaries (601 / 1000)).2.2.2.2.1.mpr (by norm_num),
   (confidenceGrade_boundaries (6 / 10)).2.2.2.2.2.mpr (by norm_num)⟩

/-- C10: `confidenceGrade` is total with range `{A+, A, B, C, D, F}`; an
`undefined`/`NaN` confidence (modelled `none`, every comparison false) and any
numeric confidence `≤ 0.60` — including values outside `[0, 1]` — fall through
to `F`. -/
theorem confidenceGrade_total (x : Option ℚ) :
    (confidenceGrade x = "A+" ∨ confidenceGrade x = "A" ∨
     confidenceGrade x = "B" ∨ confidenceGrade x = "C" ∨
     confidenceGrade x = "D" ∨ confidenceGrade x = "F") ∧
    (x = none → confidenceGrade x = "F") ∧
    (∀ q : ℚ, x = some q → q ≤ 6 / 10 → confidenceGrade x = "F") := by
  refine ⟨?_, ?_, ?_⟩
  · unfold confidenceGrade
    split_ifs <;> simp
  · intro h
    subst h
    decide
  · intro q hq hle
    subst hq
    have h1 : jsGT (some q) (95 / 100) = false := by
      simp [jsGT]; linarith
    have h2 : jsGT (some q) (9 / 10) = false := by
      simp [jsGT]; linarith
    have h3 : jsGT (some q) (8 / 10) = false := by
      simp [jsGT]; linarith
    have h4 : jsGT (some q) (7 / 10) = false := by
      simp [jsGT]; linarith
    have h5 : jsGT (some q) (6 / 10) = false := by
      simp [jsGT]; linarith
    simp [confidenceGrade, h1, h2, h3, h4, h5]

/-- Witness for `confidenceGrade_total`: the absent confidence of an interim
result and a negative out-of-range confidence both grade `F`. -/
theorem confidenceGrade_total_witness :
    confidenceGrade none = "F" ∧ confidenceGrade (some (-2)) = "F" :=
  ⟨(confidenceGrade_total none).2.1 rfl,
   (confidenceGrade_total (some (-2))).2.2 (-2) rfl (by norm_num)⟩

/-- Lemma: `insertDelay` decomposed: it rewrites the `.final` children and the aside
timestamp and touches nothing else. -/
lemma insertDelay_eq (ts : Int) (s : DictaphoneState) :
    insertDelay ts s =
      { final := delayFinal ts s.final s.aside,
        interim := s.interim,
        aside := delayAside ts s.aside,
        storage := s.storage } := by
  obtain ⟨f, i, a, st⟩ := s
  cases a <;>
    simp only [insertDelay, delayFinal, delayAside] <;>
    split_ifs <;> rfl

/-- C6 counterexample: with a stored timestamp of 0 ms, a call at 1000 ms
(delay 1 s, below the 3 s threshold) returns before `setAsideContent`, so the
aside keeps the old timestamp instead of the new one. -/
theorem insertDelay_skips_update :
    (insertDelay 1000
        { final := [], interim := "", aside := some 0, storage := none }).aside
      ≠ some 1000 := by
  decide

/-- C6 (amended): `insertDelay` updates the stored `lastEventTimestamp` to the
new timestamp when the stored one is invalid or the delay is at least the 3 s
short threshold; when a valid stored timestamp gives a delay below 3 s the
method returns early and the whole state — the aside included — is unchanged. -/
theorem insertDelay_aside_update (ts : Int) (s : DictaphoneState) :
    (s.aside = none → (insertDelay ts s).aside = some ts) ∧
    (∀ t, s.aside = some t → 3000 ≤ ts - t → (insertDelay ts s).aside = some ts) ∧
    (∀ t, s.aside = some t → ts - t < 3000 → insertDelay ts s = s) := by
  refine ⟨?_, ?_, ?_⟩
  · intro h
    simp [insertDelay_eq, delayAside, h]
  · intro t ht h3
    simp [insertDelay_eq, delayAside, ht, show ¬(ts - t < 3000) by omega]
  · intro t ht h3
    simp only [insertDelay, ht, if_pos h3]

/-- Witness for `insertDelay_aside_update`: a 5 s gap updates the aside, a
1 s gap leaves the state untouched. -/
theorem insertDelay_aside_update_witness :
    (insertDelay 5000
        { final := [], interim := "", aside := some 0, storage := none }).aside
      = some 5000 ∧
    insertDelay 1000
        { final := [], interim := "", aside := some 0, storage := none }
      = { final := [], interim := "", aside := some 0, storage := none } :=
  ⟨(insertDelay_aside_update 5000 _).2.1 0 rfl (by omega),
   (insertDelay_aside_update 1000 _).2.2 0 rfl (by omega)⟩

/-- C5 counterexample: a delay of exactly 20 s — the long threshold — renders
a run of 20 dots, not a hard separator: the code tests `delay > 20` strictly,
so "at or above the long threshold" fails at the boundary. -/
theorem delay_at_long_threshold_dots :
    (insertDelay 20000
        { final := [FinalItem.utter "a" "A" "x"], interim := "",
          aside := some 0, storage := none }).final
      = [FinalItem.utter "a" "A" "x", FinalItem.dots 20] := by
  decide

/-- C5 (amended): when the last `.final` child is an utterance and a valid
timestamp is stored, a delay below 3 s inserts no break, a delay in
`[3 s, 20 s]` inserts a run of `floor(delay)` dots, a delay strictly above
20 s inserts a hard divider, and the divider carries the formatted date and
time exactly when the delay exceeds 60 s.  In particular a 25 s gap gives a
hard divider with no date. -/
theorem delay_segmentation (ts t : Int) (s : DictaphoneState)
    (ha : s.aside = some t) (hl : lastNonDelay s.final = true) :
    (ts - t < 3000 → (insertDelay ts s).final = s.final) ∧
    (3000 ≤ ts - t → ts - t ≤ 20000 →
      (insertDelay ts s).final = s.final ++ [FinalItem.dots ((ts - t) / 1000).toNat]) ∧
    (20000 < ts - t → ts - t ≤ 60000 →
      (insertDelay ts s).final = s.final ++ [FinalItem.divider false]) ∧
    (60000 < ts - t →
      (insertDelay ts s).final = s.final ++ [FinalItem.divider true]) := by
  refine ⟨?_, ?_, ?_, ?_⟩
  · intro h3
    simp [insertDelay_eq, delayFinal, ha, if_pos h3]
  · intro h3 h20
    simp [insertDelay_eq, delayFinal, ha, hl,
      show ¬(ts - t < 3000) by omega, show ¬(20000 < ts - t) by omega]
  · intro h20 h60
    simp [insertDelay_eq, delayFinal, ha, hl,
      show ¬(ts - t < 3000) by omega, h20, show ¬(60000 < ts - t) by omega]
  · intro h60
    simp [insertDelay_eq, delayFinal, ha, hl,
      show ¬(ts - t < 3000) by omega, show 20000 < ts - t by omega, h60]

/-- Witness for `delay_segmentation`: the spec scenario — two finals 25 s
apart — yields a hard divider with no date. -/
theorem delay_segmentation_witness :
    (insertDelay 25000
        { final := [FinalItem.utter "a" "A" "x"], interim := "",
          aside := some 0, storage := none }).final
      = [FinalItem.utter "a" "A" "x", FinalItem.divider false] := by
  simpa using
    (delay_segmentation 25000 0
      { final := [FinalItem.utter "a" "A" "x"], interim := "",
        aside := some 0, storage := none } rfl rfl).2.2.1
      (by omega) (by omega)

/-- C9 counterexample: a `FinalTranscript` saying "reset bro" does not match
the command table — the fixed reset phrase in the code is
`'hard reset please'` — so it neither clears the log nor empties the display:
it is rendered as a normal utterance and the stored log is untouched. -/
theorem reset_bro_not_command :
    handleEvent false
        { type := "FinalTranscript", transcript := "reset bro", grade := "B",
          timestamp := 0, id := "x1" }
        { final := [], interim := "", aside := none,
          storage := some [{ type := "Result" }] }
      = some
        { final := [FinalItem.utter "reset bro" "B" "x1"], interim := "",
          aside := some 0, storage := some [{ type := "Result" }] } := by
  decide

/-- C9 (amended): a `FinalTranscript` whose transcript trims and lowercases to
the fixed reset phrase `"hard reset please"` executes the reset — the
persisted log is removed and both displays are emptied, no utterance is
rendered — and any other `FinalTranscript` (whose normalized text is not one
of the all-lowercase inherited `Object.prototype` keys `constructor` and
`__proto__`, which the object-literal command table also resolves) is rendered
as a normal utterance, with the interim display cleared. -/
theorem final_command_dispatch (b : Bool) (e : DomainEvent)
    (s : DictaphoneState) (htype : e.type = "FinalTranscript") :
    (normalizeCmd e.transcript = "hard reset please" →
      handleEvent b e s =
        some { final := [], interim := "", aside := s.aside, storage := none }) ∧
    (normalizeCmd e.transcript ≠ "hard reset please" →
     normalizeCmd e.transcript ≠ "constructor" →
     normalizeCmd e.transcript ≠ "__proto__" →
      (handleEvent b e s).map (fun s1 => (s1.final.getLast?, s1.interim))
        = some (some (FinalItem.utter e.transcript e.grade e.id), "")) := by
  constructor
  · intro hcmd
    cases b <;> simp [handleEvent, htype, hcmd]
  · intro h1 h2 h3
    cases b <;> simp [handleEvent, htype, h1, h2, h3]

/-- Witness for `final_command_dispatch`: " Hard RESET please " (case and
outer-space insensitive) resets; "hello there" is rendered as an utterance. -/
theorem final_command_dispatch_witness :
    handleEvent true
        { type := "FinalTranscript", transcript := " Hard RESET please ",
          grade := "A", timestamp := 9, id := "c1" }
        { final := [FinalItem.utter "old" "B" "o1"], interim := "w",
          aside := some 3, storage := some [] }
      = some { final := [], interim := "", aside := some 3, storage := none } ∧
    (handleEvent false
        { type := "FinalTranscript", transcript := "hello there", grade := "A",
          timestamp := 9, id := "c2" }
        { final := [], interim := "", aside := none, storage := none }).map
        (fun s1 => (s1.final.getLast?, s1.interim))
      = some (some (FinalItem.utter "hello there" "A" "c2"), "") :=
  ⟨(final_command_dispatch true _ _ (by decide)).1 (by decide),
   (final_command_dispatch false _ _ (by decide)).2
     (by decide) (by decide) (by decide)⟩

/-- Lemma: `insertDelay` never touches the persisted log. -/
lemma insertDelay_storage (ts : Int) (s : DictaphoneState) :
    (insertDelay ts s).storage = s.storage := by
  simp [insertDelay_eq]

/-- A single replayed event (`shouldSave = false`) leaves the persisted log
unchanged unless it is the reset command, which removes it. -/
lemma handleEvent_false_storage (e : DomainEvent) (s s' : DictaphoneState)
    (h : handleEvent false e s = some s') :
    s'.storage = s.storage ∨ s'.storage = none := by
  simp only [handleEvent, if_neg (by decide : ¬(false = true))] at h
  split_ifs at h <;>
    simp only [Option.some.injEq] at h <;>
    subst h <;>
    simp [insertDelay_storage]

/-- Replaying a list of events with `shouldSave = false` leaves the persisted
log unchanged or removed (by a replayed reset command); it never appends. -/
lemma handleEvents_false_storage :
    ∀ (events : List DomainEvent) (s s' : DictaphoneState),
      handleEvents false events s = some s' →
      s'.storage = s.storage ∨ s'.storage = none := by
  intro events
  induction events with
  | nil =>
    intro s s' h
    simp only [handleEvents, Option.some.injEq] at h
    subst h
    left
    rfl
  | cons e es ih =>
    intro s s' h
    simp only [handleEvents] at h
    cases he : handleEvent false e s with
    | none => rw [he] at h; cases h
    | some s1 =>
      rw [he] at h
      rcases ih s1 s' h with h1 | h1
      · rcases handleEvent_false_storage e s s1 he with h2 | h2
        · left; rw [h1, h2]
        · right; rw [h1, h2]
      · right; exact h1

/-- C8 counterexample: the persisted contents are not always identical before
and after replay — a stored log holding the reset command clears itself when
replayed (the replayed `FinalTranscript` matches the command table and calls
`reset()`, which removes the log). -/
theorem replay_clears_on_reset_command :
    (loadAndHandleEvents
        { final := [], interim := "", aside := none,
          storage := some [resetEvent] }).map DictaphoneState.storage
      ≠ some (some [resetEvent]) := by
  decide

/-- C8 (amended): startup replay applies every stored event with persistence
disabled, so it never appends to the log: after replay the persisted log is
either exactly what it was or removed by a replayed reset command.  In
particular replaying the same log twice cannot duplicate entries. -/
theorem replay_never_appends (s s' : DictaphoneState)
    (h : loadAndHandleEvents s = some s') :
    s'.storage = s.storage ∨ s'.storage = none :=
  handleEvents_false_storage _ s s' h

/-- Witness for `replay_never_appends` on a concrete one-event log, whose
replay leaves the log exactly as stored. -/
theorem replay_never_appends_witness :
    ({ final := [FinalItem.utter "hi" "A" "i1"], interim := "",
       aside := some 0, storage := some [hiEvent] } : DictaphoneState).storage
      = ({ final := [], interim := "", aside := none,
           storage := some [hiEvent] } : DictaphoneState).storage
    ∨ ({ final := [FinalItem.utter "hi" "A" "i1"], interim := "",
         aside := some 0, storage := some [hiEvent] } :
          DictaphoneState).storage = none :=
  replay_never_appends _ _ (by decide)

/-- Persistence on is persistence off after the `saveEvent` append: the rest
of `handleEvent` only looks at the updated state. -/
lemma handleEvent_save (e : DomainEvent) (s : DictaphoneState) :
    handleEvent true e s
      = handleEvent false e { s with storage := some (s.storage.getD [] ++ [e]) } :=
  rfl

/-- With persistence off, `handleEvent` computes the same transcript part
(and fails identically) from states agreeing on it. -/
lemma handleEvent_false_proj_congr (e : DomainEvent)
    (s₁ s₂ : DictaphoneState) (h : proj s₁ = proj s₂) :
    (handleEvent false e s₁).map proj = (handleEvent false e s₂).map proj := by
  obtain ⟨f₁, i₁, a₁, st₁⟩ := s₁
  obtain ⟨f₂, i₂, a₂, st₂⟩ := s₂
  simp only [proj, Prod.mk.injEq] at h
  obtain ⟨hf, hi, ha⟩ := h
  subst hf; subst hi; subst ha
  simp only [handleEvent, if_neg (by decide : ¬(false = true))]
  split_ifs <;>
    simp [proj, insertDelay_eq]

/-- Whether persistence is on or off, `handleEvent` computes the same
transcript part (and fails identically) from states agreeing on it: the
`shouldSave` flag only decides the `saveEvent` append to the log. -/
lemma handleEvent_proj_congr (b₁ b₂ : Bool) (e : DomainEvent)
    (s₁ s₂ : DictaphoneState) (h : proj s₁ = proj s₂) :
    (handleEvent b₁ e s₁).map proj = (handleEvent b₂ e s₂).map proj := by
  have key : ∀ (b : Bool) (s : DictaphoneState),
      (handleEvent b e s).map proj = (handleEvent false e s).map proj := by
    intro b s
    cases b
    · rfl
    · rw [handleEvent_save]
      exact handleEvent_false_proj_congr e _ s (by simp [proj])
  rw [key b₁ s₁, key b₂ s₂]
  exact handleEvent_false_proj_congr e s₁ s₂ h

/-- Folding `handleEvent` over the same events from transcript-equal states,
live on one side and replaying on the other, keeps the transcript parts equal
step by step. -/
lemma handleEvents_proj_congr (b₁ b₂ : Bool) :
    ∀ (events : List DomainEvent) (s₁ s₂ : DictaphoneState),
      proj s₁ = proj s₂ →
      (handleEvents b₁ events s₁).map proj = (handleEvents b₂ events s₂).map proj := by
  intro events
  induction events with
  | nil =>
    intro s₁ s₂ h
    simpa [handleEvents] using h
  | cons e es ih =>
    intro s₁ s₂ h
    have hstep := handleEvent_proj_congr b₁ b₂ e s₁ s₂ h
    simp only [handleEvents]
    cases h₁ : handleEvent b₁ e s₁ with
    | none =>
      cases h₂ : handleEvent b₂ e s₂ with
      | none => rfl
      | some t₂ => rw [h₁, h₂] at hstep; simp at hstep
    | some t₁ =>
      cases h₂ : handleEvent b₂ e s₂ with
      | none =>
        rw [h₁, h₂] at hstep
        exact absurd hstep (by simp)
      | some t₂ =>
        rw [h₁, h₂] at hstep
        simp only [Option.map_some', Option.some.injEq] at hstep
        exact ih t₁ t₂ hstep

/-- C2: from the empty transcript state, applying an event sequence through
`handleEvent` with persistence disabled (`shouldSave = false`, the replay
path) computes exactly the same rendered `.final` utterance sequence with
grades, the same `.interim` buffer, and the same segmentation marker as the
live run (`shouldSave = true`) of the same events — the flag only controls
the log append, never the transcript state. -/
theorem replay_determinism (events : List DomainEvent) :
    (handleEvents true events emptyState).map proj
      = (handleEvents false events emptyState).map proj :=
  handleEvents_proj_congr true false events emptyState emptyState rfl

/-- Unfolding one frame of `processList`. -/
lemma processList_cons (sr thr : ℚ) (s : RmsState) (f : List (List ℚ))
    (fs : List (List (List ℚ))) :
    processList sr thr s (f :: fs) =
      ((processList sr thr (process sr thr s f).1 fs).1,
       (process sr thr s f).2.toList
         ++ (processList sr thr (process sr thr s f).1 fs).2) :=
  rfl

/-- While speaking, a run of below-threshold frames shorter than the chunk
limit only counts up: no message is posted and the state stays speaking. -/
lemma processList_below_short (sr thr : ℚ) (N : Nat) :
    ∀ (fs : List (List (List ℚ))) (c : Nat),
      (∀ f ∈ fs, frameBelow thr f = true ∧ chunkLimit sr f = N) →
      c + fs.length < N →
      processList sr thr ⟨c, false⟩ fs = (⟨c + fs.length, false⟩, []) := by
  intro fs
  induction fs with
  | nil => intro c _ _; simp [processList]
  | cons f gs ih =>
    intro c hall hlt
    obtain ⟨hb, hN⟩ := hall f (List.mem_cons_self f gs)
    have hgs : ∀ g ∈ gs, frameBelow thr g = true ∧ chunkLimit sr g = N :=
      fun g hg => hall g (List.mem_cons_of_mem f hg)
    have hlen : c + 1 + gs.length < N := by
      simp only [List.length_cons] at hlt
      omega
    have hstep : process sr thr ⟨c, false⟩ f = (⟨c + 1, false⟩, none) := by
      simp [process, hb, hN, show ¬(N ≤ c + 1) by omega]
    have hrec := ih (c + 1) hgs hlen
    rw [processList_cons, hstep]
    simp only [hrec, List.length_cons]
    exact Prod.ext (by simp; omega) rfl

/-- While speaking, a run of below-threshold frames of length exactly the
chunk limit posts exactly the `{silent: true}` transition at its last frame. -/
lemma processList_below_exact (sr thr : ℚ) (N : Nat) :
    ∀ (fs : List (List (List ℚ))) (c : Nat),
      (∀ f ∈ fs, frameBelow thr f = true ∧ chunkLimit sr f = N) →
      c + fs.length = N → fs ≠ [] →
      (processList sr thr ⟨c, false⟩ fs).2 = [true] := by
  intro fs
  induction fs with
  | nil => intro c _ _ hne; exact absurd rfl hne
  | cons f gs ih =>
    intro c hall hlen _
    obtain ⟨hb, hN⟩ := hall f (List.mem_cons_self f gs)
    have hgs : ∀ g ∈ gs, frameBelow thr g = true ∧ chunkLimit sr g = N :=
      fun g hg => hall g (List.mem_cons_of_mem f hg)
    cases gs with
    | nil =>
      have hc : N ≤ c + 1 := by
        simp only [List.length_cons, List.length_nil] at hlen
        omega
      have hstep : process sr thr ⟨c, false⟩ f = (⟨c + 1, true⟩, some true) := by
        simp [process, hb, hN, hc]
      rw [processList_cons, hstep]
      simp [processList]
    | cons g gs' =>
      have hstep : process sr thr ⟨c, false⟩ f = (⟨c + 1, false⟩, none) := by
        have hnle : ¬(N ≤ c + 1) := by
          simp only [List.length_cons] at hlen
          omega
        simp [process, hb, hN, hnle]
      have hrec := ih (c + 1) hgs
        (by simp only [List.length_cons] at hlen ⊢; omega) (by simp)
      rw [processList_cons, hstep]
      simpa using hrec

/-- C7: (1) a port message is posted exactly on a state flip — `some b` makes
the new state's silence flag `b` and the old one its negation; (2) after any
above-threshold frame (which immediately puts the detector in the speaking
state and resets the counter), fewer than `ceil(sampleRate / frameSize)`
consecutive at-or-below-threshold frames post no `{silent: true}` — in
particular a single below-threshold frame amid above-threshold ones never
signals speech-stopped; (3) exactly that many consecutive below-threshold
frames post exactly one `{silent: true}`. -/
theorem vad_hysteresis :
    (∀ (sr thr : ℚ) (s : RmsState) (f : List (List ℚ)) (b : Bool),
        (process sr thr s f).2 = some b →
        (process sr thr s f).1.silence = b ∧ s.silence = !b) ∧
    (∀ (sr thr : ℚ) (s : RmsState) (N : Nat) (f₀ : List (List ℚ))
        (fs : List (List (List ℚ))),
        frameBelow thr f₀ = false →
        (∀ f ∈ fs, frameBelow thr f = true ∧ chunkLimit sr f = N) →
        fs.length < N →
        (processList sr thr s (f₀ :: fs)).2.count true = 0 ∧
        (processList sr thr s (f₀ :: fs)).1 = ⟨fs.length, false⟩) ∧
    (∀ (sr thr : ℚ) (s : RmsState) (N : Nat) (f₀ : List (List ℚ))
        (fs : List (List (List ℚ))),
        frameBelow thr f₀ = false →
        (∀ f ∈ fs, frameBelow thr f = true ∧ chunkLimit sr f = N) →
        fs.length = N → fs ≠ [] →
        (processList sr thr s (f₀ :: fs)).2.count true = 1) := by
  refine ⟨?_, ?_, ?_⟩
  · intro sr thr s f b h
    simp only [process] at h ⊢
    split_ifs at h ⊢ <;> simp_all
  · intro sr thr s N f₀ fs hf0 hall hlt
    have hrest := processList_below_short sr thr N fs 0 hall (by omega)
    cases hsil : s.silence
    · have hstep : process sr thr s f₀ = (⟨0, false⟩, none) := by
        simp [process, hf0, hsil]
      rw [processList_cons, hstep]
      simp [hrest]
    · have hstep : process sr thr s f₀ = (⟨0, false⟩, some false) := by
        simp [process, hf0, hsil]
      rw [processList_cons, hstep]
      simp [hrest]
  · intro sr thr s N f₀ fs hf0 hall hlen hne
    have hrest := processList_below_exact sr thr N fs 0 hall (by omega) hne
    cases hsil : s.silence
    · have hstep : process sr thr s f₀ = (⟨0, false⟩, none) := by
        simp [process, hf0, hsil]
      rw [processList_cons, hstep]
      simp [hrest]
    · have hstep : process sr thr s f₀ = (⟨0, false⟩, some false) := by
        simp [process, hf0, hsil]
      rw [processList_cons, hstep]
      simp [hrest]

/-- Witness for `vad_hysteresis`: with sample rate 2 and one-sample frames
(chunk limit `ceil(2/1) = 2`), an above-threshold frame followed by two
below-threshold frames posts exactly one speech-stopped message. -/
theorem vad_hysteresis_witness :
    (processList 2 (1 / 10) ⟨0, true⟩ [[[1]], [[0]], [[0]]]).2.count true = 1 :=
  vad_hysteresis.2.2 2 (1 / 10) ⟨0, true⟩ 2 [[1]] [[[0]], [[0]]]
    (by norm_num [frameBelow, sumSquares, effThreshold])
    (by
      intro f hf
      have hfr : frameBelow (1 / 10) [[0]] = true := by
        norm_num [frameBelow, sumSquares, effThreshold]
      have hck : chunkLimit 2 [[0]] = 2 := by
        norm_num [chunkLimit]
        decide
      have hfeq : f = [[0]] := by simpa using hf
      subst hfeq
      exact ⟨hfr, hck⟩)
    (by norm_num) (by simp)

end Swash
